import Mathlib

/-!
MAX17048 fuel-gauge emulator (drivers/fuel_gauge/max17048/emul_max17048.c).

A shallow embedding of the emulator's control surface
(`emul_max17048_set_voltage`, `emul_max17048_set_soc`,
`emul_max17048_set_crate_status`) and of its I2C transfer handler
(`max17048_emul_transfer_i2c`), followed by theorems about them.

Conventions of the embedding.

* Machine integers are `Nat` / `Int`; every C conversion to a narrower or
  unsigned type is an explicit `% 2 ^ w`.
* `float` values are exact rationals (`ℚ`).  The product `soc_in_percentage * 256`
  is exact in binary floating point as well; the quotient computed by
  `DIV_ROUND_UP` is idealised.
* A pointer to an emulator is `Option emul`: `none` is `NULL`, `some n` is the
  instance created by `MAX17048_EMUL(n)`.
* The transfer handler returns `none` where the C program has no defined
  result: an access past the end of an array or buffer, a dereferenced `NULL`
  target, or a failed `__ASSERT_NO_MSG` when assertions are compiled in.
-/

namespace Max17048

/-! ## Constants of headers that are not part of the translated sources -/

/-- Modelled from the spec: the "InvalidInput" error code. `errno.h` is not among the
sources; `EINVAL` is 22 there. -/
def EINVAL : Int := 22

/-- Modelled from the spec: the "I/O-class error" code. `errno.h` is not among the
sources; `EIO` is 5 there. -/
def EIO : Int := 5

/-- Modelled from the spec: the direction flag of a message segment ("a read" versus
"a write"). `zephyr/drivers/i2c.h` is not among the sources; `I2C_MSG_READ` is `BIT(0)`. -/
def I2C_MSG_READ : Nat := 1

/-- Build parameters taken from files that are not among the sources: the register
identifiers of `max17048.h` and whether `__ASSERT_NO_MSG` is compiled in
(`CONFIG_ASSERT`). -/
structure max17048_h where
  REGISTER_VERSION : Int
  REGISTER_CRATE : Int
  REGISTER_SOC : Int
  REGISTER_VCELL : Int
  CONFIG_ASSERT : Bool
  deriving DecidableEq, Repr

/-- The `case` labels of the `switch` in `emul_max17048_reg_read` are pairwise
distinct (a C compiler rejects duplicate labels). -/
def max17048_h.distinct (H : max17048_h) : Prop :=
  H.REGISTER_VERSION ≠ H.REGISTER_CRATE ∧ H.REGISTER_VERSION ≠ H.REGISTER_SOC ∧
  H.REGISTER_VERSION ≠ H.REGISTER_VCELL ∧ H.REGISTER_CRATE ≠ H.REGISTER_SOC ∧
  H.REGISTER_CRATE ≠ H.REGISTER_VCELL ∧ H.REGISTER_SOC ≠ H.REGISTER_VCELL

instance (H : max17048_h) : Decidable H.distinct := by
  unfold max17048_h.distinct; infer_instance

/-- The register map of the MAX17048 data sheet (VCELL 0x02, SOC 0x04, VERSION 0x08,
CRATE 0x16), with assertions compiled out. Used for concrete evaluations. -/
def datasheet : max17048_h :=
  { REGISTER_VERSION := 0x08, REGISTER_CRATE := 0x16, REGISTER_SOC := 0x04,
    REGISTER_VCELL := 0x02, CONFIG_ASSERT := false }

/-! ## State -/

/-- `static const float vcell_lsb = 78.125;` -/
def vcell_lsb : ℚ := 78125 / 1000

/-- `struct max17048_emul_data`: the run-time data of one emulator instance. -/
structure max17048_emul_data where
  soc_reg : Nat
  vcell_reg : Nat
  deriving DecidableEq, Repr

/-- Handle of an emulator instance: the `n` of `MAX17048_EMUL(n)`. -/
abbrev emul := Nat

/-- The mutable state of the translation unit: the file-scope `crate_value` and the
`max17048_emul_data_##n` object of every instance. -/
structure emul_state where
  crate_value : Int
  data : emul → max17048_emul_data

/-- The initialiser of `MAX17048_EMUL(n)`. -/
def max17048_emul_data_init : max17048_emul_data :=
  { soc_reg := 0x2535, vcell_reg := 0x8743 }

/-- State at start-up: `crate_value = 0x4000`, every instance at its initialiser. -/
def emul_state.init : emul_state :=
  { crate_value := 0x4000, data := fun _ => max17048_emul_data_init }

/-- Store `d` as the data of instance `n` (the effect of an assignment through
`target->data`). -/
def emul_state.store (s : emul_state) (n : emul) (d : max17048_emul_data) : emul_state :=
  { s with data := fun i => if i = n then d else s.data i }

/-! ## Arithmetic helpers -/

/-- Conversion of a real value to an integer type discards the fractional part
(rounds toward zero). -/
def trunc (x : ℚ) : Int := if 0 ≤ x then ⌊x⌋ else ⌈x⌉

/-- Conversion `(uint16_t) x` of a float: truncate, then keep the low 16 bits. (For a
value whose integral part does not fit, ISO C leaves the result undefined; the
model wraps.) -/
def float_to_uint16 (x : ℚ) : Nat := (trunc x % 2 ^ 16).toNat

/-- Conversion of a float to `uint32_t`: truncate, then keep the low 32 bits. -/
def float_to_uint32 (x : ℚ) : Nat := (trunc x % 2 ^ 32).toNat

/-- Modelled from the spec: the rounding-up division macro `DIV_ROUND_UP(n, d)` of
`zephyr/sys/util.h`, which is not among the sources: `(((n) + (d) - 1) / (d))`.
With a `float` divisor the whole expression is evaluated in floating point, here in
exact rational arithmetic. -/
def DIV_ROUND_UP (n d : ℚ) : ℚ := (n + d - 1) / d

/-! ## Control surface -/

/-- `void emul_max17048_set_crate_status(int value)` -/
def emul_max17048_set_crate_status (value : Int) (s : emul_state) : emul_state :=
  { s with crate_value := value }

/-- `int emul_max17048_set_voltage(const struct emul *target, uint16_t voltage_in_mV)`:
the return value and the state after the call. -/
def emul_max17048_set_voltage (target : Option emul) (voltage_in_mV : Nat)
    (s : emul_state) : Int × emul_state :=
  match target with
  | none => (- EINVAL, s)
  | some n =>
    if voltage_in_mV > 5119 then
      (- EINVAL, s)
    else
      let voltage_in_uV : Nat := (voltage_in_mV * 1000) % 2 ^ 32
      let voltage_in_uV : Nat := float_to_uint32 (DIV_ROUND_UP (voltage_in_uV : ℚ) vcell_lsb)
      (0, s.store n { s.data n with vcell_reg := voltage_in_uV % 2 ^ 16 })

/-- `int emul_max17048_set_soc(const struct emul *target, float soc_in_percentage)`:
the return value and the state after the call. The last statement of the C function
is `return -EINVAL;`. -/
def emul_max17048_set_soc (target : Option emul) (soc_in_percentage : ℚ)
    (s : emul_state) : Int × emul_state :=
  match target with
  | none => (- EINVAL, s)
  | some n =>
    if soc_in_percentage > 100 then
      (- EINVAL, s)
    else
      (- EINVAL, s.store n { s.data n with soc_reg := float_to_uint16 (soc_in_percentage * 256) })

/-! ## Bus transfer -/

/-- `struct i2c_msg`: one message segment. `buf` holds the bytes the pointer `buf`
points to, `len` is the `uint32_t` length field, `flags` the flag byte. -/
structure i2c_msg where
  buf : List Nat
  len : Nat
  flags : Nat
  deriving DecidableEq, Repr

/-- Modelled from the spec: "serialize the 16-bit value most-significant-byte-first into
the segment buffer". `sys_put_be16(uint16_t val, uint8_t dst[2])` of
`zephyr/sys/byteorder.h` is not among the sources; it stores `val >> 8` in `dst[0]` and
the low byte of `val` in `dst[1]`. The result is `none` when `dst` has no two bytes. -/
def sys_put_be16 (val : Nat) (dst : List Nat) : Option (List Nat) :=
  match dst with
  | _ :: _ :: rest => some ((val >>> 8) % 2 ^ 8 :: val % 2 ^ 8 :: rest)
  | _ => none

/-- Modelled from the spec: "the 16-bit value is deserialized most-significant-byte-first".
`sys_get_be16(const uint8_t src[2])` of `zephyr/sys/byteorder.h` is not among the
sources; it returns `(src[0] << 8) | src[1]`. The result is `none` when `src` has no
two bytes. -/
def sys_get_be16 (src : List Nat) : Option Nat :=
  match src with
  | b0 :: b1 :: _ => some (((b0 <<< 8) ||| b1) % 2 ^ 16)
  | _ => none

/-- `static int emul_max17048_reg_write(const struct emul *target, int reg, int val)` -/
def emul_max17048_reg_write (_target : emul) (_reg : Int) (_val : Int)
    (s : emul_state) : Int × emul_state :=
  (- EIO, s)

/-- `static int emul_max17048_reg_read(const struct emul *target, int reg, int *val)`:
the return value and, when the function assigns `*val`, the value assigned. -/
def emul_max17048_reg_read (H : max17048_h) (target : emul) (reg : Int)
    (s : emul_state) : Int × Option Int :=
  let data := s.data target
  if reg = H.REGISTER_VERSION then (0, some 0x0010)
  else if reg = H.REGISTER_CRATE then (0, some s.crate_value)
  else if reg = H.REGISTER_SOC then (0, some (data.soc_reg : Int))
  else if reg = H.REGISTER_VCELL then (0, some (data.vcell_reg : Int))
  else (- EIO, none)

/-- `static int max17048_emul_transfer_i2c(const struct emul *target, struct i2c_msg *msgs,
int num_msgs, int addr)`: the return value, the message array after the call and the
state after the call; `none` where the C function has no defined result. `msgs` lists
the elements of the array `msgs` points to. -/
def max17048_emul_transfer_i2c (H : max17048_h) (target : Option emul)
    (msgs : List i2c_msg) (num_msgs : Int) (_addr : Int) (s : emul_state) :
    Option (Int × List i2c_msg × emul_state) :=
  match target with
  | none => none
  | some t =>
    if H.CONFIG_ASSERT && decide (num_msgs = 0) then none
    else if num_msgs = 2 then
      match msgs with
      | [] => none
      | m0 :: rest =>
        if m0.flags &&& I2C_MSG_READ ≠ 0 then some (- EIO, msgs, s)
        else if m0.len ≠ 1 then some (- EIO, msgs, s)
        else
          match m0.buf with
          | [] => none
          | b :: _ =>
            let reg : Int := (b : Int)
            match rest with
            | [] => none
            | m1 :: tail =>
              if m1.flags &&& I2C_MSG_READ ≠ 0 then
                if (m1.len + 2 ^ 32 - 1) % 2 ^ 32 = 1 then
                  match emul_max17048_reg_read H t reg s with
                  | (rc, val) =>
                    if rc ≠ 0 then some (rc, msgs, s)
                    else
                      match val with
                      | none => none
                      | some v =>
                        let val : Nat := (v % 2 ^ 32).toNat
                        match sys_put_be16 (val % 2 ^ 16) m1.buf with
                        | none => none
                        | some buf => some (rc, m0 :: { m1 with buf := buf } :: tail, s)
                else some (- EIO, msgs, s)
              else
                match sys_get_be16 m1.buf with
                | none => none
                | some value =>
                  match emul_max17048_reg_write t reg (value : Int) s with
                  | (rc, s1) => some (rc, msgs, s1)
    else some (- EIO, msgs, s)

/-- A well-formed read transaction of the register byte `reg`: segment `m0` is a write
(read flag clear) of length 1 carrying the byte `reg`, segment `m1` is a read (read flag
set) of length 2 with a two-byte buffer. -/
def well_formed_read (reg : Nat) (m0 m1 : i2c_msg) : Prop :=
  m0.flags &&& I2C_MSG_READ = 0 ∧ m0.len = 1 ∧ m0.buf = [reg] ∧
  m1.flags &&& I2C_MSG_READ ≠ 0 ∧ m1.len = 2 ∧ m1.buf.length = 2

instance (reg : Nat) (m0 m1 : i2c_msg) : Decidable (well_formed_read reg m0 m1) := by
  unfold well_formed_read; infer_instance

/-! ## Sequences of calls -/

/-- One call into the emulator: a control-surface call from the test harness or a bus
transaction. -/
inductive emul_call where
  | set_voltage (target : Option emul) (voltage_in_mV : Nat)
  | set_soc (target : Option emul) (soc_in_percentage : ℚ)
  | set_crate_status (value : Int)
  | transfer (target : Option emul) (msgs : List i2c_msg) (num_msgs : Int) (addr : Int)

/-- The state after one call; `none` when a bus transaction has no defined result. -/
def emul_call.run (H : max17048_h) (c : emul_call) (s : emul_state) : Option emul_state :=
  match c with
  | .set_voltage target v => some (emul_max17048_set_voltage target v s).2
  | .set_soc target p => some (emul_max17048_set_soc target p s).2
  | .set_crate_status value => some (emul_max17048_set_crate_status value s)
  | .transfer target msgs num_msgs addr =>
    match max17048_emul_transfer_i2c H target msgs num_msgs addr s with
    | none => none
    | some r => some r.2.2

/-- The state after a finite sequence of calls, made in order. -/
def run_calls (H : max17048_h) (cs : List emul_call) (s : emul_state) : Option emul_state :=
  match cs with
  | [] => some s
  | c :: rest =>
    match c.run H s with
    | none => none
    | some s1 => run_calls H rest s1

/-! ## Contract of the transfer handler -/

/-- What the caller of `max17048_emul_transfer_i2c` guarantees: the assertion
`msgs && num_msgs` holds when it is compiled in; `msgs` points to `num_msgs` segments;
each length field is a `uint32_t` and each buffer holds at least `len` bytes; and a
segment after the first that is not a read holds the two bytes that `sys_get_be16`
reads from it. -/
def transfer_pre (H : max17048_h) (msgs : List i2c_msg) (num_msgs : Int) : Prop :=
  ¬ (H.CONFIG_ASSERT = true ∧ num_msgs = 0) ∧
  (msgs.length : Int) = num_msgs ∧
  (∀ m ∈ msgs, m.len < 2 ^ 32 ∧ m.len ≤ m.buf.length) ∧
  (∀ m ∈ msgs.tail, m.flags &&& I2C_MSG_READ = 0 → 2 ≤ m.buf.length)

instance (H : max17048_h) (msgs : List i2c_msg) (num_msgs : Int) :
    Decidable (transfer_pre H msgs num_msgs) := by
  unfold transfer_pre; infer_instance

/-- The byte `b` is one of `REGISTER_VERSION`, `REGISTER_CRATE`, `REGISTER_SOC`,
`REGISTER_VCELL`. -/
def known_register (H : max17048_h) (b : Nat) : Prop :=
  (b : Int) = H.REGISTER_VERSION ∨ (b : Int) = H.REGISTER_CRATE ∨
  (b : Int) = H.REGISTER_SOC ∨ (b : Int) = H.REGISTER_VCELL

instance (H : max17048_h) (b : Nat) : Decidable (known_register H b) := by
  unfold known_register; infer_instance

/-- The condition for success as the specification words it: exactly two segments;
segment 0 does not carry the read flag and has length exactly 1; segment 1 carries the
read flag and has length exactly 2; the byte in segment 0 is a known register. -/
def read_accepted (H : max17048_h) (msgs : List i2c_msg) (num_msgs : Int) : Prop :=
  num_msgs = 2 ∧
  ∃ m0 ∈ msgs.head?, ∃ m1 ∈ msgs.tail.head?,
    m0.flags &&& I2C_MSG_READ = 0 ∧ m0.len = 1 ∧
    m1.flags &&& I2C_MSG_READ ≠ 0 ∧ m1.len = 2 ∧
    ∃ b ∈ m0.buf.head?, known_register H b

instance (H : max17048_h) (msgs : List i2c_msg) (num_msgs : Int) :
    Decidable (read_accepted H msgs num_msgs) := by
  unfold read_accepted; infer_instance

/-- The call is `emul_max17048_set_crate_status`. -/
def emul_call.is_set_crate_status (c : emul_call) : Bool :=
  match c with
  | .set_crate_status _ => true
  | _ => false

/-- The invariant of the specification's data model: `soc_reg` of every instance encodes
a percentage in [0, 100], that is `soc_reg ≤ 0x6400`. -/
def soc_in_range (s : emul_state) : Prop := ∀ n, (s.data n).soc_reg ≤ 0x6400

/-! ## Lemmas on the voltage encoding -/

/-- The value of `DIV_ROUND_UP(voltage_in_mV * 1000, vcell_lsb)` in lowest terms. -/
theorem DIV_ROUND_UP_vcell (v : Nat) :
    DIV_ROUND_UP (((v * 1000 : Nat) : ℚ)) vcell_lsb = (64 * (v : ℚ)) / 5 + 617 / 625 := by
  unfold DIV_ROUND_UP vcell_lsb
  push_cast
  ring

/-- Truncating `DIV_ROUND_UP(voltage_in_mV * 1000, vcell_lsb)` gives `(64 v + 4) / 5`
in integer division. -/
theorem trunc_DIV_ROUND_UP_vcell (v : Nat) :
    trunc (DIV_ROUND_UP (((v * 1000 : Nat) : ℚ)) vcell_lsb) = (((64 * v + 4) / 5 : Nat) : Int) := by
  have hx := DIV_ROUND_UP_vcell v
  have hv0 : (0 : ℚ) ≤ (v : ℚ) := Nat.cast_nonneg v
  have hpos : (0 : ℚ) ≤ DIV_ROUND_UP (((v * 1000 : Nat) : ℚ)) vcell_lsb := by
    rw [hx]; positivity
  unfold trunc
  rw [if_pos hpos, hx]
  have h1 : 5 * ((64 * v + 4) / 5) ≤ 64 * v + 4 := Nat.mul_div_le _ _
  have h2 : 64 * v ≤ 5 * ((64 * v + 4) / 5) := by omega
  generalize (64 * v + 4) / 5 = k at h1 h2 ⊢
  have h1q : (5 : ℚ) * (k : ℚ) ≤ 64 * (v : ℚ) + 4 := by exact_mod_cast h1
  have h2q : (64 : ℚ) * (v : ℚ) ≤ 5 * (k : ℚ) := by exact_mod_cast h2
  rw [Int.floor_eq_iff]
  simp only [Int.cast_natCast]
  constructor <;> linarith

/-- The true ceiling of `voltage_in_mV * 1000 / 78.125` is `(64 v + 4) / 5` in integer
division. -/
theorem ceil_vcell (v : Nat) :
    ⌈((v : ℚ) * 1000) / vcell_lsb⌉ = (((64 * v + 4) / 5 : Nat) : Int) := by
  have hx : ((v : ℚ) * 1000) / vcell_lsb = (64 * (v : ℚ)) / 5 := by
    unfold vcell_lsb; ring
  rw [hx]
  have h1 : 5 * ((64 * v + 4) / 5) ≤ 64 * v + 4 := Nat.mul_div_le _ _
  have h2 : 64 * v ≤ 5 * ((64 * v + 4) / 5) := by omega
  generalize (64 * v + 4) / 5 = k at h1 h2 ⊢
  have h1q : (5 : ℚ) * (k : ℚ) ≤ 64 * (v : ℚ) + 4 := by exact_mod_cast h1
  have h2q : (64 : ℚ) * (v : ℚ) ≤ 5 * (k : ℚ) := by exact_mod_cast h2
  rw [Int.ceil_eq_iff]
  simp only [Int.cast_natCast]
  constructor <;> linarith

/-- The register value stored by `emul_max17048_set_voltage` for an accepted voltage. -/
theorem set_voltage_vcell_reg (n : emul) (v : Nat) (s : emul_state) (hv : v ≤ 5119) :
    emul_max17048_set_voltage (some n) v s
      = (0, s.store n { s.data n with vcell_reg := (64 * v + 4) / 5 }) := by
  have hnot : ¬ v > 5119 := by omega
  have hmod : v * 1000 % 2 ^ 32 = v * 1000 := Nat.mod_eq_of_lt (by omega)
  have hu : float_to_uint32 (DIV_ROUND_UP (((v * 1000 : Nat) : ℚ)) vcell_lsb)
      = (64 * v + 4) / 5 := by
    unfold float_to_uint32
    rw [trunc_DIV_ROUND_UP_vcell]
    have hk : (64 * v + 4) / 5 ≤ 65535 := by omega
    generalize (64 * v + 4) / 5 = k at hk ⊢
    omega
  simp only [emul_max17048_set_voltage, if_neg hnot, hmod, hu]
  have h16 : (64 * v + 4) / 5 % 2 ^ 16 = (64 * v + 4) / 5 := Nat.mod_eq_of_lt (by omega)
  rw [h16]

@[simp]
theorem store_data_same (s : emul_state) (n : emul) (d : max17048_emul_data) :
    (s.store n d).data n = d := by
  simp [emul_state.store]

@[simp]
theorem store_crate_value (s : emul_state) (n : emul) (d : max17048_emul_data) :
    (s.store n d).crate_value = s.crate_value := rfl

/-! ## Lemmas on the bus transfer -/

/-- The low 16 bits of the `unsigned int` that holds a register value. -/
theorem low16_of_uint (v : Int) : (v % 2 ^ 32).toNat % 2 ^ 16 = (v % 2 ^ 16).toNat := by
  omega

/-- A well-formed read whose register read succeeds with `v` returns 0, replaces the
reply buffer by the big-endian bytes of the low 16 bits of `v`, and changes nothing
else. -/
theorem transfer_read_eq (H : max17048_h) (t : emul) (reg : Nat) (m0 m1 : i2c_msg)
    (addr : Int) (s : emul_state) (v : Int) (hwf : well_formed_read reg m0 m1)
    (hr : emul_max17048_reg_read H t (reg : Int) s = (0, some v)) :
    max17048_emul_transfer_i2c H (some t) [m0, m1] 2 addr s
      = some (0, [m0, { m1 with buf := [(v % 2 ^ 16).toNat / 256, (v % 2 ^ 16).toNat % 256] }],
              s) := by
  obtain ⟨h0f, h0l, h0b, h1f, h1l, h1b⟩ := hwf
  obtain ⟨b1, l1, f1⟩ := m1
  simp only at h1f h1l h1b
  match b1, h1b with
  | [x, y], _ =>
    simp only [max17048_emul_transfer_i2c, h0f, h0l, h0b, h1f, h1l, hr, sys_put_be16,
      low16_of_uint, Nat.shiftRight_eq_div_pow]
    simp [h1f]
    clear hr h0f h0l h0b h1f h1l h1b
    omega

/-- `emul_max17048_reg_read` either returns 0 with a value or returns `-EIO` without
one. -/
theorem reg_read_cases (H : max17048_h) (t : emul) (reg : Int) (s : emul_state) :
    (∃ v, emul_max17048_reg_read H t reg s = (0, some v)) ∨
    emul_max17048_reg_read H t reg s = (- EIO, none) := by
  unfold emul_max17048_reg_read
  simp only
  split_ifs <;> simp

/-- A known register is read successfully. -/
theorem reg_read_known (H : max17048_h) (t : emul) (b : Nat) (s : emul_state)
    (hk : known_register H b) :
    ∃ v, emul_max17048_reg_read H t (b : Int) s = (0, some v) := by
  rcases reg_read_cases H t (b : Int) s with h | h
  · exact h
  · exfalso
    unfold emul_max17048_reg_read at h
    unfold known_register at hk
    simp only at h
    split_ifs at h with h1 h2 h3 h4
    all_goals first
      | (simp [ EIO] at h; done)
      | (rcases hk with hk | hk | hk | hk <;> contradiction)

/-- An unknown register byte makes `emul_max17048_reg_read` fail with `-EIO`. -/
theorem reg_read_unknown (H : max17048_h) (t : emul) (b : Nat) (s : emul_state)
    (hk : ¬ known_register H b) :
    emul_max17048_reg_read H t (b : Int) s = (- EIO, none) := by
  unfold known_register at hk
  simp only [not_or] at hk
  obtain ⟨h1, h2, h3, h4⟩ := hk
  simp [emul_max17048_reg_read, h1, h2, h3, h4]

/-- Under the caller's contract a two-segment array is a list of two segments with the
buffers the handler touches in place. -/
theorem transfer_pre_two (H : max17048_h) (msgs : List i2c_msg)
    (hpre : transfer_pre H msgs 2) :
    ∃ m0 m1, msgs = [m0, m1] ∧ m0.len < 2 ^ 32 ∧ m1.len < 2 ^ 32 ∧
      m0.len ≤ m0.buf.length ∧ m1.len ≤ m1.buf.length ∧
      (m1.flags &&& I2C_MSG_READ = 0 → 2 ≤ m1.buf.length) := by
  obtain ⟨-, hlen, hbuf, hwr⟩ := hpre
  match msgs, hlen, hbuf, hwr with
  | [m0, m1], _, hbuf, hwr =>
    refine ⟨m0, m1, rfl, (hbuf m0 (by simp)).1, (hbuf m1 (by simp)).1, (hbuf m0 (by simp)).2,
      (hbuf m1 (by simp)).2, hwr m1 (by simp)⟩
  | [], hlen, _, _ => simp at hlen
  | [_], hlen, _, _ => simp at hlen
  | _ :: _ :: _ :: _, hlen, _, _ =>
    simp only [List.length_cons] at hlen
    omega

/-- Under the caller's contract an accepted transaction returns 0, replaces the first two
bytes of the reply buffer by the big-endian bytes of the low 16 bits of the register
value, and changes nothing else. -/
theorem transfer_accepted (H : max17048_h) (t : emul) (msgs : List i2c_msg)
    (num_msgs addr : Int) (s : emul_state) (hpre : transfer_pre H msgs num_msgs)
    (hacc : read_accepted H msgs num_msgs) :
    ∃ m0 m1 b bt x y rest v, msgs = [m0, m1] ∧ m0.buf = b :: bt ∧ m1.buf = x :: y :: rest ∧
      emul_max17048_reg_read H t (b : Int) s = (0, some v) ∧
      max17048_emul_transfer_i2c H (some t) msgs num_msgs addr s
        = some (0, [m0, { m1 with buf := (v % 2 ^ 16).toNat / 256 ::
                                          (v % 2 ^ 16).toNat % 256 :: rest }], s) := by
  obtain ⟨hn, hacc⟩ := hacc
  subst hn
  obtain ⟨m0, m1, hm, -, -, -, hb1, -⟩ := transfer_pre_two H msgs hpre
  subst hm
  simp only [List.head?_cons, Option.mem_def, Option.some.injEq, List.tail_cons,
    exists_eq_left'] at hacc
  obtain ⟨h0f, h0l, h1f, h1l, b, hb, hk⟩ := hacc
  obtain ⟨v, hv⟩ := reg_read_known H t b s hk
  obtain ⟨buf0, l0, f0⟩ := m0
  obtain ⟨buf1, l1, f1⟩ := m1
  simp only at h0f h0l h1f h1l hb hb1
  subst h0l h1l
  match buf0, hb with
  | b' :: bt, hb =>
    simp only [List.head?_cons, Option.some.injEq] at hb
    subst hb
    match buf1, hb1 with
    | x :: y :: rest, _ =>
      refine ⟨_, _, b', bt, x, y, rest, v, rfl, rfl, rfl, hv, ?_⟩
      simp only [max17048_emul_transfer_i2c, h0f, h1f, hv, sys_put_be16, low16_of_uint,
        Nat.shiftRight_eq_div_pow]
      simp [h1f]
      clear hv h0f h1f hk hpre
      omega

/-- Under the caller's contract a transaction that is not accepted returns `-EIO` and
changes nothing. -/
theorem transfer_rejected (H : max17048_h) (t : emul) (msgs : List i2c_msg)
    (num_msgs addr : Int) (s : emul_state) (hpre : transfer_pre H msgs num_msgs)
    (hacc : ¬ read_accepted H msgs num_msgs) :
    max17048_emul_transfer_i2c H (some t) msgs num_msgs addr s = some (- EIO, msgs, s) := by
  by_cases hn : num_msgs = 2
  · subst hn
    obtain ⟨m0, m1, hm, hl0, hl1, hb0, hb1, hw1⟩ := transfer_pre_two H msgs hpre
    subst hm
    simp only [read_accepted, List.head?_cons, Option.mem_def, Option.some.injEq,
      List.tail_cons, exists_eq_left', true_and] at hacc
    obtain ⟨buf0, l0, f0⟩ := m0
    obtain ⟨buf1, l1, f1⟩ := m1
    simp only at hacc hl0 hl1 hb0 hb1 hw1
    by_cases h0f : f0 &&& I2C_MSG_READ = 0
    · by_cases h0l : l0 = 1
      · subst h0l
        match buf0, hb0 with
        | b :: bt, _ =>
          by_cases h1f : f1 &&& I2C_MSG_READ = 0
          · have h2 := hw1 h1f
            match buf1, h2 with
            | x :: y :: rest, _ =>
              simp [max17048_emul_transfer_i2c, h0f, h1f, sys_get_be16,
                emul_max17048_reg_write]
          · by_cases h1l : l1 = 2
            · subst h1l
              have hk : ¬ known_register H b := by
                intro hk
                exact hacc ⟨h0f, rfl, h1f, rfl, b, rfl, hk⟩
              have hr := reg_read_unknown H t b s hk
              simp only [max17048_emul_transfer_i2c, h0f, h1f, hr]
              simp [ EIO, h1f]
            · have hne : ¬ (l1 + 2 ^ 32 - 1) % 2 ^ 32 = 1 := by
                clear hacc hw1 h0f h1f hpre
                omega
              simp only [max17048_emul_transfer_i2c, h0f, h1f, hne]
              simp [h1f]
      · simp [max17048_emul_transfer_i2c, h0f, h0l]
    · simp [max17048_emul_transfer_i2c, h0f]
  · have hasrt : ¬ (H.CONFIG_ASSERT = true ∧ num_msgs = 0) := hpre.1
    simp only [max17048_emul_transfer_i2c, if_neg hn]
    by_cases hz : num_msgs = 0
    · have hc : H.CONFIG_ASSERT = false := by
        cases hC : H.CONFIG_ASSERT
        · rfl
        · exact absurd ⟨hC, hz⟩ hasrt
      simp [hc]
    · simp [hz]

/-- A bus transaction never changes the state. -/
theorem transfer_state_eq (H : max17048_h) (target : Option emul)
    (msgs msgs' : List i2c_msg) (num_msgs addr rc : Int) (s s' : emul_state)
    (h : max17048_emul_transfer_i2c H target msgs num_msgs addr s = some (rc, msgs', s')) :
    s' = s := by
  unfold max17048_emul_transfer_i2c at h
  repeat' split at h
  all_goals try simp at h
  all_goals try (obtain ⟨-, -, h3⟩ := h; exact h3.symm)
  · split at h
    · split at h
      · simp at h
      · split at h
        · simp at h
        · simp only [Option.some.injEq, Prod.mk.injEq] at h
          exact h.2.2.symm
    · simp only [Option.some.injEq, Prod.mk.injEq] at h
      exact h.2.2.symm

/-- A call other than `emul_max17048_set_crate_status` leaves `crate_value` as it was. -/
theorem run_keeps_crate_value (H : max17048_h) (c : emul_call) (s s' : emul_state)
    (hc : c.is_set_crate_status = false) (h : c.run H s = some s') :
    s'.crate_value = s.crate_value := by
  cases c with
  | set_voltage target v =>
    simp only [emul_call.run, Option.some.injEq] at h
    subst h
    unfold emul_max17048_set_voltage
    split
    · rfl
    · split <;> rfl
  | set_soc target p =>
    simp only [emul_call.run, Option.some.injEq] at h
    subst h
    unfold emul_max17048_set_soc
    split
    · rfl
    · split <;> rfl
  | set_crate_status x => simp [emul_call.is_set_crate_status] at hc
  | transfer target msgs num_msgs addr =>
    simp only [emul_call.run] at h
    split at h
    · simp at h
    · rename_i r hr
      obtain ⟨rc, msgs', s1⟩ := r
      simp only [Option.some.injEq] at h
      subst h
      rw [transfer_state_eq H target msgs msgs' num_msgs addr rc s s1 hr]

/-- A sequence of calls without `emul_max17048_set_crate_status` leaves `crate_value` as
it was. -/
theorem run_calls_keeps_crate_value (H : max17048_h) (cs : List emul_call)
    (s s' : emul_state) (hcs : ∀ c ∈ cs, c.is_set_crate_status = false)
    (h : run_calls H cs s = some s') :
    s'.crate_value = s.crate_value := by
  induction cs generalizing s with
  | nil =>
    simp only [run_calls, Option.some.injEq] at h
    rw [h]
  | cons c rest ih =>
    simp only [run_calls] at h
    split at h
    · simp at h
    · rename_i s1 h1
      rw [ih s1 (fun c' hc' => hcs c' (List.mem_cons_of_mem c hc')) h,
        run_keeps_crate_value H c s s1 (hcs c (List.mem_cons_self c rest)) h1]

/-- A transaction that returned 0 was a read; when it is repeated on the reply buffer
that it left, it returns 0 again and leaves the same bytes. -/
theorem transfer_success_again (H : max17048_h) (target : Option emul)
    (msgs msgs' : List i2c_msg) (num_msgs addr : Int) (s s' : emul_state)
    (h : max17048_emul_transfer_i2c H target msgs num_msgs addr s = some (0, msgs', s')) :
    max17048_emul_transfer_i2c H target msgs' num_msgs addr s = some (0, msgs', s') := by
  have hs := transfer_state_eq H target msgs msgs' num_msgs addr 0 s s' h
  subst hs
  unfold max17048_emul_transfer_i2c at h
  repeat' split at h
  all_goals try (simp [ EIO] at h; done)
  · rename_i t hasrt hn _ m0 h0f h0l _ b bt hb0 _ m1 tail h1f h1l
    rcases reg_read_cases H t (b : Int) s' with ⟨v, hv⟩ | hv
    · simp only [hv] at h
      obtain ⟨buf1, l1, f1⟩ := m1
      simp only at h h1f h1l
      match buf1, h with
      | [], h => simp [sys_put_be16] at h
      | [_], h => simp [sys_put_be16] at h
      | x :: y :: rest, h =>
        simp only [sys_put_be16, ne_eq, not_true_eq_false, if_false, Option.some.injEq,
          Prod.mk.injEq, true_and, and_true] at h
        subst h
        simp only [max17048_emul_transfer_i2c, hn, h0f, h0l, hb0, h1f, h1l, hv,
          sys_put_be16, if_true, if_false, ne_eq, not_true_eq_false]
        simp
    · simp [hv, EIO] at h
  · simp [emul_max17048_reg_write, EIO] at h

/-- Acceptance depends only on the flags and lengths of the segments and on the register
byte of segment 0. -/
theorem read_accepted_congr (H : max17048_h) (msgs1 msgs2 : List i2c_msg) (num_msgs : Int)
    (hshape : msgs1.map (fun m => (m.flags, m.len)) = msgs2.map (fun m => (m.flags, m.len)))
    (hreg : (msgs1.head?.bind fun m => m.buf.head?) = (msgs2.head?.bind fun m => m.buf.head?))
    (h : read_accepted H msgs1 num_msgs) : read_accepted H msgs2 num_msgs := by
  obtain ⟨hn, h⟩ := h
  refine ⟨hn, ?_⟩
  match msgs1, msgs2, hshape, hreg, h with
  | [], _, _, _, h => simp at h
  | [_], _, _, _, h => simp at h
  | a0 :: a1 :: r1, [], hshape, _, _ => simp at hshape
  | a0 :: a1 :: r1, [_], hshape, _, _ => simp at hshape
  | a0 :: a1 :: r1, b0 :: b1 :: r2, hshape, hreg, h =>
    simp only [List.map_cons, List.cons.injEq, Prod.mk.injEq] at hshape
    obtain ⟨⟨hf0, hl0⟩, ⟨hf1, hl1⟩, -⟩ := hshape
    simp only [List.head?_cons, Option.some_bind] at hreg
    simp only [List.head?_cons, Option.mem_def, Option.some.injEq, List.tail_cons,
      exists_eq_left'] at h ⊢
    rw [← hf0, ← hl0, ← hf1, ← hl1, ← hreg]
    exact h

/-- The percentage range of `soc_reg` is kept by every call except an
`emul_max17048_set_soc` whose scaled argument truncates to a negative integer. -/
theorem soc_in_range_preserved (H : max17048_h) (c : emul_call) (s s' : emul_state)
    (hc : ∀ target p, c = .set_soc target p → -1 < p * 256)
    (hr : soc_in_range s) (h : c.run H s = some s') : soc_in_range s' := by
  cases c with
  | set_voltage target v =>
    simp only [emul_call.run, Option.some.injEq] at h
    subst h
    intro i
    unfold emul_max17048_set_voltage
    split
    · exact hr i
    · split
      · exact hr i
      · simp only [emul_state.store]
        split
        · exact hr _
        · exact hr i
  | set_soc target p =>
    simp only [emul_call.run, Option.some.injEq] at h
    subst h
    have hp := hc target p rfl
    intro i
    unfold emul_max17048_set_soc
    split
    · exact hr i
    · split
      · exact hr i
      · next hle =>
        simp only [emul_state.store]
        split
        · have hle' : p * 256 ≤ 25600 := by
            have := not_lt.mp hle
            linarith
          have h0 : 0 ≤ trunc (p * 256) := by
            unfold trunc
            split
            · next h0 => exact Int.floor_nonneg.mpr h0
            · have hq : ((-1 : Int) : ℚ) < p * 256 := by push_cast; exact hp
              have := Int.lt_ceil.mpr hq
              omega
          have h1 : trunc (p * 256) ≤ 25600 := by
            unfold trunc
            split
            · have : ⌊p * 256⌋ < 25601 := by
                rw [Int.floor_lt]; push_cast; linarith
              omega
            · next hneg =>
              have hneg' : p * 256 ≤ ((0 : Int) : ℚ) := by
                push_cast; exact le_of_lt (not_le.mp hneg)
              have := Int.ceil_le.mpr hneg'
              omega
          simp only [float_to_uint16]
          omega
        · exact hr i
  | set_crate_status x =>
    simp only [emul_call.run, Option.some.injEq] at h
    subst h
    exact hr
  | transfer target msgs num_msgs addr =>
    simp only [emul_call.run] at h
    split at h
    · simp at h
    · rename_i r hrr
      obtain ⟨rc, msgs', s1⟩ := r
      simp only [Option.some.injEq] at h
      subst h
      rw [transfer_state_eq H target msgs msgs' num_msgs addr rc s s1 hrr]
      exact hr

/-! ## Claims -/

/-- C1: for every voltage of at most 5119 mV and every non-null target,
`emul_max17048_set_voltage` returns 0 and afterwards `vcell_reg` equals the ceiling of
`voltage_in_mV * 1000 / 78.125`, which is the ceiling of `64 * voltage_in_mV / 5`; the
value before the 16-bit cast is at most 65535, so the cast truncates nothing, and the
truncated `DIV_ROUND_UP` formula coincides with the true ceiling. -/
theorem set_voltage_stores_ceiling (n : emul) (v : Nat) (s : emul_state) (hv : v ≤ 5119) :
    (emul_max17048_set_voltage (some n) v s).1 = 0 ∧
    ((((emul_max17048_set_voltage (some n) v s).2.data n).vcell_reg : Nat) : Int)
      = ⌈((v : ℚ) * 1000) / vcell_lsb⌉ ∧
    ⌈((v : ℚ) * 1000) / vcell_lsb⌉ = ⌈(64 * (v : ℚ)) / 5⌉ ∧
    trunc (DIV_ROUND_UP ((((v * 1000) % 2 ^ 32 : Nat) : ℚ)) vcell_lsb)
      = ⌈((v : ℚ) * 1000) / vcell_lsb⌉ ∧
    float_to_uint32 (DIV_ROUND_UP ((((v * 1000) % 2 ^ 32 : Nat) : ℚ)) vcell_lsb) ≤ 65535 := by
  have hmod : v * 1000 % 2 ^ 32 = v * 1000 := Nat.mod_eq_of_lt (by omega)
  have hx : ((v : ℚ) * 1000) / vcell_lsb = (64 * (v : ℚ)) / 5 := by
    unfold vcell_lsb; ring
  rw [set_voltage_vcell_reg n v s hv, hmod, trunc_DIV_ROUND_UP_vcell, ceil_vcell]
  refine ⟨rfl, ?_, ?_, rfl, ?_⟩
  · simp
  · rw [← hx, ceil_vcell]
  · unfold float_to_uint32
    rw [trunc_DIV_ROUND_UP_vcell]
    have hk : (64 * v + 4) / 5 ≤ 65535 := by omega
    generalize (64 * v + 4) / 5 = k at hk ⊢
    omega

/-- Witness of C1: `set_voltage(3300)` on a default instance returns 0 and stores
42240 = 0xA500. -/
theorem set_voltage_stores_ceiling_witness :
    (emul_max17048_set_voltage (some 0) 3300 emul_state.init).1 = 0 ∧
    ((emul_max17048_set_voltage (some 0) 3300 emul_state.init).2.data 0).vcell_reg = 0xA500 := by
  have h := set_voltage_stores_ceiling 0 3300 emul_state.init (by decide)
  refine ⟨h.1, ?_⟩
  have hc : ⌈((3300 : Nat) : ℚ) * 1000 / vcell_lsb⌉ = 42240 := by
    rw [Int.ceil_eq_iff]; unfold vcell_lsb; norm_num
  have h2 := h.2.1
  rw [hc] at h2
  exact_mod_cast h2

/-- C2: for every voltage above 5119 mV and every state, `emul_max17048_set_voltage`
returns `-EINVAL` and leaves the whole state (every `vcell_reg`, every `soc_reg` and
`crate_value`) as it was, for a null and for a non-null target. -/
theorem set_voltage_rejects_above_5119 (target : Option emul) (v : Nat) (s : emul_state)
    (hv : 5119 < v) :
    emul_max17048_set_voltage target v s = (- EINVAL, s) := by
  cases target with
  | none => rfl
  | some n => simp [emul_max17048_set_voltage, hv]

/-- Witness of C2: 5120 mV on a default instance. -/
theorem set_voltage_rejects_above_5119_witness :
    emul_max17048_set_voltage (some 0) 5120 emul_state.init = (-22, emul_state.init) :=
  set_voltage_rejects_above_5119 (some 0) 5120 emul_state.init (by decide)

/-- C3: for every voltage of at most 5119 mV and every starting state, after
`emul_max17048_set_voltage` (which returns 0) a well-formed bus read of `REGISTER_VCELL`
returns 0 and leaves two bytes `b0`, `b1` in the reply buffer whose value
`r = 256 * b0 + b1` satisfies `0 ≤ r * 78.125 - v * 1000 < 78.125`. -/
theorem set_voltage_then_read_within_one_lsb (H : max17048_h) (hd : H.distinct) (t : emul)
    (v reg : Nat) (m0 m1 : i2c_msg) (addr : Int) (s : emul_state) (hv : v ≤ 5119)
    (hreg : (reg : Int) = H.REGISTER_VCELL) (hwf : well_formed_read reg m0 m1) :
    (emul_max17048_set_voltage (some t) v s).1 = 0 ∧
    ∃ b0 b1 : Nat, b0 < 256 ∧ b1 < 256 ∧
      max17048_emul_transfer_i2c H (some t) [m0, m1] 2 addr
          (emul_max17048_set_voltage (some t) v s).2
        = some (0, [m0, { m1 with buf := [b0, b1] }],
                (emul_max17048_set_voltage (some t) v s).2) ∧
      0 ≤ ((256 * b0 + b1 : Nat) : ℚ) * vcell_lsb - (v : ℚ) * 1000 ∧
      ((256 * b0 + b1 : Nat) : ℚ) * vcell_lsb - (v : ℚ) * 1000 < vcell_lsb := by
  obtain ⟨-, -, h3, -, h5, h6⟩ := hd
  rw [set_voltage_vcell_reg t v s hv]
  have h1k : 5 * ((64 * v + 4) / 5) ≤ 64 * v + 4 := Nat.mul_div_le _ _
  have h2k : 64 * v ≤ 5 * ((64 * v + 4) / 5) := by omega
  have hk : (64 * v + 4) / 5 ≤ 65535 := by omega
  generalize (64 * v + 4) / 5 = k at h1k h2k hk ⊢
  refine ⟨rfl, k / 256, k % 256, by omega, by omega, ?_, ?_, ?_⟩
  · have hr : emul_max17048_reg_read H t (reg : Int)
        (s.store t { s.data t with vcell_reg := k }) = (0, some (k : Int)) := by
      simp [emul_max17048_reg_read, hreg, Ne.symm h3, Ne.symm h5, Ne.symm h6]
    rw [transfer_read_eq H t reg m0 m1 addr _ (k : Int) hwf hr]
    have hlow : ((k : Int) % 2 ^ 16).toNat = k := by omega
    rw [hlow]
  · have hsum : 256 * (k / 256) + k % 256 = k := Nat.div_add_mod k 256
    rw [hsum]
    have h2q : (64 : ℚ) * (v : ℚ) ≤ 5 * (k : ℚ) := by exact_mod_cast h2k
    unfold vcell_lsb
    linarith
  · have hsum : 256 * (k / 256) + k % 256 = k := Nat.div_add_mod k 256
    rw [hsum]
    have h1q : (5 : ℚ) * (k : ℚ) ≤ 64 * (v : ℚ) + 4 := by exact_mod_cast h1k
    unfold vcell_lsb
    linarith

/-- Witness of C3: 3300 mV on a default instance, read back with the data-sheet
register map. -/
theorem set_voltage_then_read_within_one_lsb_witness :
    (emul_max17048_set_voltage (some 0) 3300 emul_state.init).1 = 0 ∧
    ∃ b0 b1 : Nat, b0 < 256 ∧ b1 < 256 ∧
      max17048_emul_transfer_i2c datasheet (some 0) [⟨[2], 1, 0⟩, ⟨[0, 0], 2, 1⟩] 2 0x36
          (emul_max17048_set_voltage (some 0) 3300 emul_state.init).2
        = some (0, [⟨[2], 1, 0⟩, ⟨[b0, b1], 2, 1⟩],
                (emul_max17048_set_voltage (some 0) 3300 emul_state.init).2) ∧
      0 ≤ ((256 * b0 + b1 : Nat) : ℚ) * vcell_lsb - ((3300 : Nat) : ℚ) * 1000 ∧
      ((256 * b0 + b1 : Nat) : ℚ) * vcell_lsb - ((3300 : Nat) : ℚ) * 1000 < vcell_lsb :=
  set_voltage_then_read_within_one_lsb datasheet (by decide) 0 3300 2 ⟨[2], 1, 0⟩
    ⟨[0, 0], 2, 1⟩ 0x36 emul_state.init (by decide) (by decide) (by decide)

/-- C4: for every state and every register byte among `REGISTER_VERSION`,
`REGISTER_CRATE`, `REGISTER_SOC`, `REGISTER_VCELL`, a well-formed read transaction
returns 0 and sets the reply buffer to `[value >> 8, value & 0xFF]`, where `value` is
the low 16 bits of what `emul_max17048_reg_read` yields for the register: `soc_reg` for
`REGISTER_SOC` and `vcell_reg` for `REGISTER_VCELL`. Nothing else changes. -/
theorem transfer_read_big_endian (H : max17048_h) (hd : H.distinct) (t : emul) (reg : Nat)
    (m0 m1 : i2c_msg) (addr : Int) (s : emul_state)
    (hreg : (reg : Int) = H.REGISTER_VERSION ∨ (reg : Int) = H.REGISTER_CRATE ∨
      (reg : Int) = H.REGISTER_SOC ∨ (reg : Int) = H.REGISTER_VCELL)
    (hwf : well_formed_read reg m0 m1) :
    ∃ v : Int, emul_max17048_reg_read H t (reg : Int) s = (0, some v) ∧
      max17048_emul_transfer_i2c H (some t) [m0, m1] 2 addr s
        = some (0, [m0, { m1 with buf := [(v % 2 ^ 16).toNat >>> 8,
                                          (v % 2 ^ 16).toNat &&& 0xFF] }], s) ∧
      ((reg : Int) = H.REGISTER_SOC → v = ((s.data t).soc_reg : Int)) ∧
      ((reg : Int) = H.REGISTER_VCELL → v = ((s.data t).vcell_reg : Int)) := by
  obtain ⟨h1, h2, h3, h4, h5, h6⟩ := hd
  have hbytes : ∀ v : Int, [(v % 2 ^ 16).toNat >>> 8, (v % 2 ^ 16).toNat &&& 0xFF]
      = [(v % 2 ^ 16).toNat / 256, (v % 2 ^ 16).toNat % 256] := by
    intro v
    rw [Nat.shiftRight_eq_div_pow]
    have : (255 : Nat) = 2 ^ 8 - 1 := by norm_num
    rw [this, Nat.and_pow_two_sub_one_eq_mod]
  rcases hreg with h | h | h | h
  · have hr : emul_max17048_reg_read H t (reg : Int) s = (0, some 0x0010) := by
      simp [emul_max17048_reg_read, h]
    refine ⟨0x0010, hr, ?_, ?_, ?_⟩
    · rw [transfer_read_eq H t reg m0 m1 addr s _ hwf hr, hbytes]
    · intro h'; exact absurd (h.symm.trans h') h2
    · intro h'; exact absurd (h.symm.trans h') h3
  · have hr : emul_max17048_reg_read H t (reg : Int) s = (0, some s.crate_value) := by
      simp [emul_max17048_reg_read, h, Ne.symm h1]
    refine ⟨s.crate_value, hr, ?_, ?_, ?_⟩
    · rw [transfer_read_eq H t reg m0 m1 addr s _ hwf hr, hbytes]
    · intro h'; exact absurd (h.symm.trans h') h4
    · intro h'; exact absurd (h.symm.trans h') h5
  · have hr : emul_max17048_reg_read H t (reg : Int) s
        = (0, some ((s.data t).soc_reg : Int)) := by
      simp [emul_max17048_reg_read, h, Ne.symm h2, Ne.symm h4]
    refine ⟨((s.data t).soc_reg : Int), hr, ?_, ?_, ?_⟩
    · rw [transfer_read_eq H t reg m0 m1 addr s _ hwf hr, hbytes]
    · intro _; rfl
    · intro h'; exact absurd (h.symm.trans h') h6
  · have hr : emul_max17048_reg_read H t (reg : Int) s
        = (0, some ((s.data t).vcell_reg : Int)) := by
      simp [emul_max17048_reg_read, h, Ne.symm h3, Ne.symm h5, Ne.symm h6]
    refine ⟨((s.data t).vcell_reg : Int), hr, ?_, ?_, ?_⟩
    · rw [transfer_read_eq H t reg m0 m1 addr s _ hwf hr, hbytes]
    · intro h'; exact absurd (h'.symm.trans h) h6
    · intro _; rfl

/-- Witness of C4: on a default instance (`soc_reg = 0x2535`) a read of `REGISTER_SOC`
returns 0 with reply bytes 0x25, 0x35. -/
theorem transfer_read_big_endian_witness :
    max17048_emul_transfer_i2c datasheet (some 0) [⟨[4], 1, 0⟩, ⟨[0, 0], 2, 1⟩] 2 0x36
        emul_state.init
      = some (0, [⟨[4], 1, 0⟩, ⟨[0x25, 0x35], 2, 1⟩], emul_state.init) := by
  obtain ⟨v, -, ht, hsoc, -⟩ := transfer_read_big_endian datasheet (by decide) 0 4
    ⟨[4], 1, 0⟩ ⟨[0, 0], 2, 1⟩ 0x36 emul_state.init (by decide) (by decide)
  have hv : v = 0x2535 := hsoc rfl
  subst hv
  exact ht

/-- C5, the code at a failing input: for 50 percent on a default instance
`emul_max17048_set_soc` stores `0x3200` in `soc_reg` and nevertheless returns
`-EINVAL` (-22), not 0. -/
theorem set_soc_returns_error_on_success_path :
    (emul_max17048_set_soc (some 0) 50 emul_state.init).1 = -22 ∧
    (emul_max17048_set_soc (some 0) 50 emul_state.init).1 ≠ 0 ∧
    ((emul_max17048_set_soc (some 0) 50 emul_state.init).2.data 0).soc_reg = 0x3200 := by
  have hfl : ⌊(12800 : ℚ)⌋ = 12800 := by
    rw [Int.floor_eq_iff]; norm_num
  have hnot : ¬ ((50 : ℚ) > 100) := by norm_num
  simp only [emul_max17048_set_soc, if_neg hnot, store_data_same, float_to_uint16, trunc, EINVAL]
  norm_num [hfl]
  rfl

/-- C6: for every percentage `p` with `0 ≤ p ≤ 100` (an exact rational), after
`emul_max17048_set_soc` the stored `soc_reg` equals `floor(p * 256)`; its high byte
`soc_reg >> 8` equals `floor(p)`, its low byte equals `floor((p - floor(p)) * 256)`, and
the value is at most `0x6400`. -/
theorem set_soc_stores_floor (n : emul) (p : ℚ) (s : emul_state) (h0 : 0 ≤ p)
    (h100 : p ≤ 100) :
    ((((emul_max17048_set_soc (some n) p s).2.data n).soc_reg : Nat) : Int) = ⌊p * 256⌋ ∧
    (((((emul_max17048_set_soc (some n) p s).2.data n).soc_reg >>> 8 : Nat)) : Int) = ⌊p⌋ ∧
    (((((emul_max17048_set_soc (some n) p s).2.data n).soc_reg &&& 0xFF : Nat)) : Int)
      = ⌊(p - (⌊p⌋ : ℚ)) * 256⌋ ∧
    ((emul_max17048_set_soc (some n) p s).2.data n).soc_reg ≤ 0x6400 := by
  have hnot : ¬ (p > 100) := not_lt.mpr h100
  have hp256 : (0 : ℚ) ≤ p * 256 := by positivity
  have hfr0 : (0 : ℚ) ≤ p - (⌊p⌋ : ℚ) := sub_nonneg.mpr (Int.floor_le p)
  have hfr1 : p - (⌊p⌋ : ℚ) < 1 := by
    have := Int.lt_floor_add_one p
    linarith
  have hg0 : 0 ≤ ⌊(p - (⌊p⌋ : ℚ)) * 256⌋ := Int.floor_nonneg.mpr (by positivity)
  have hg1 : ⌊(p - (⌊p⌋ : ℚ)) * 256⌋ < 256 := by
    rw [Int.floor_lt]; push_cast; linarith
  have ha0 : 0 ≤ ⌊p⌋ := Int.floor_nonneg.mpr h0
  have hsplit : ⌊p * 256⌋ = ⌊(p - (⌊p⌋ : ℚ)) * 256⌋ + 256 * ⌊p⌋ := by
    have : p * 256 = (p - (⌊p⌋ : ℚ)) * 256 + ((256 * ⌊p⌋ : Int) : ℚ) := by
      push_cast; ring
    rw [this, Int.floor_add_int]
  have hle : ⌊p * 256⌋ < 25601 := by
    rw [Int.floor_lt]; push_cast; linarith
  have hval : ((emul_max17048_set_soc (some n) p s).2.data n).soc_reg
      = (⌊p * 256⌋ % 2 ^ 16).toNat := by
    simp only [emul_max17048_set_soc, if_neg hnot, store_data_same, float_to_uint16, trunc,
      if_pos hp256]
  rw [hval, Nat.shiftRight_eq_div_pow]
  have h255 : (255 : Nat) = 2 ^ 8 - 1 := by norm_num
  rw [h255, Nat.and_pow_two_sub_one_eq_mod, hsplit]
  generalize ⌊(p - (⌊p⌋ : ℚ)) * 256⌋ = g at hg0 hg1 hsplit ⊢
  generalize ⌊p⌋ = a at ha0 hsplit ⊢
  generalize ⌊p * 256⌋ = r at hsplit hle
  subst hsplit
  refine ⟨?_, ?_, ?_, ?_⟩ <;> omega

/-- Witness of C6: 37.5 percent. -/
theorem set_soc_stores_floor_witness :
    ((((emul_max17048_set_soc (some 0) (75 / 2) emul_state.init).2.data 0).soc_reg : Nat) : Int)
      = ⌊(75 / 2 : ℚ) * 256⌋ ∧
    (((((emul_max17048_set_soc (some 0) (75 / 2) emul_state.init).2.data 0).soc_reg >>> 8
      : Nat)) : Int) = ⌊(75 / 2 : ℚ)⌋ ∧
    (((((emul_max17048_set_soc (some 0) (75 / 2) emul_state.init).2.data 0).soc_reg &&& 0xFF
      : Nat)) : Int) = ⌊((75 / 2 : ℚ) - (⌊(75 / 2 : ℚ)⌋ : ℚ)) * 256⌋ ∧
    ((emul_max17048_set_soc (some 0) (75 / 2) emul_state.init).2.data 0).soc_reg ≤ 0x6400 :=
  set_soc_stores_floor 0 (75 / 2) emul_state.init (by norm_num) (by norm_num)

/-- C7: for every percentage above 100 and every state, `emul_max17048_set_soc` returns
`-EINVAL` and leaves the whole state (every `soc_reg`, every `vcell_reg` and
`crate_value`) as it was, for a null and for a non-null target. -/
theorem set_soc_rejects_above_100 (target : Option emul) (p : ℚ) (s : emul_state)
    (hp : 100 < p) :
    emul_max17048_set_soc target p s = (- EINVAL, s) := by
  cases target with
  | none => rfl
  | some n => simp [emul_max17048_set_soc, hp]

/-- Witness of C7: on a default instance `set_soc(100.1)` returns `-EINVAL` (-22) and
`soc_reg` remains `0x2535`. -/
theorem set_soc_rejects_above_100_witness :
    (emul_max17048_set_soc (some 0) (1001 / 10) emul_state.init).1 = -22 ∧
    ((emul_max17048_set_soc (some 0) (1001 / 10) emul_state.init).2.data 0).soc_reg
      = 0x2535 := by
  rw [set_soc_rejects_above_100 (some 0) (1001 / 10) emul_state.init (by norm_num)]
  exact ⟨rfl, rfl⟩

/-- C8: in every state reached from the start-up state by a finite sequence of
`emul_max17048_set_voltage`, `emul_max17048_set_soc`, `emul_max17048_set_crate_status`
calls and bus transactions of any shape, a well-formed bus read of `REGISTER_VERSION`
on any instance returns 0 with reply bytes `[0x00, 0x10]`. -/
theorem version_read_fixed (H : max17048_h) (cs : List emul_call) (s : emul_state)
    (hs : run_calls H cs emul_state.init = some s) (t : emul) (reg : Nat) (m0 m1 : i2c_msg)
    (addr : Int) (hreg : (reg : Int) = H.REGISTER_VERSION)
    (hwf : well_formed_read reg m0 m1) :
    max17048_emul_transfer_i2c H (some t) [m0, m1] 2 addr s
      = some (0, [m0, { m1 with buf := [0x00, 0x10] }], s) := by
  have _ := hs
  have hr : emul_max17048_reg_read H t (reg : Int) s = (0, some 0x0010) := by
    simp [emul_max17048_reg_read, hreg]
  rw [transfer_read_eq H t reg m0 m1 addr s _ hwf hr]
  rfl

/-- Witness of C8: after a charge-rate update, a voltage update, a state-of-charge
update and a three-segment transaction, the version register still reads 0x0010. -/
theorem version_read_fixed_witness :
    max17048_emul_transfer_i2c datasheet (some 0) [⟨[8], 1, 0⟩, ⟨[0xAA, 0xBB], 2, 1⟩] 2 0x36
        (emul_max17048_set_soc (some 0) 50 (emul_max17048_set_voltage (some 0) 3300
          (emul_max17048_set_crate_status 7 emul_state.init)).2).2
      = some (0, [⟨[8], 1, 0⟩, ⟨[0x00, 0x10], 2, 1⟩],
          (emul_max17048_set_soc (some 0) 50 (emul_max17048_set_voltage (some 0) 3300
            (emul_max17048_set_crate_status 7 emul_state.init)).2).2) :=
  version_read_fixed datasheet
    [.set_crate_status 7, .set_voltage (some 0) 3300, .set_soc (some 0) 50,
      .transfer (some 0) [⟨[8], 1, 0⟩, ⟨[], 0, 0⟩, ⟨[], 0, 0⟩] 3 0x36]
    _ rfl 0 8 ⟨[8], 1, 0⟩ ⟨[0xAA, 0xBB], 2, 1⟩ 0x36 (by decide) (by decide)

/-- C9: for every state, every register byte and every two-byte payload, a bus write
transaction (segment 0 a write of the one register byte, segment 1 without the read
flag) returns `-EIO` and leaves the state and the message buffers as they were, whatever
the length field of the second segment. -/
theorem transfer_write_rejected (H : max17048_h) (t : emul) (reg p0 p1 : Nat)
    (m0 m1 : i2c_msg) (addr : Int) (s : emul_state)
    (h0f : m0.flags &&& I2C_MSG_READ = 0) (h0l : m0.len = 1) (h0b : m0.buf = [reg])
    (h1f : m1.flags &&& I2C_MSG_READ = 0) (h1b : m1.buf = [p0, p1]) :
    max17048_emul_transfer_i2c H (some t) [m0, m1] 2 addr s = some (- EIO, [m0, m1], s) := by
  simp [max17048_emul_transfer_i2c, h0f, h0l, h0b, h1f, h1b, sys_get_be16,
    emul_max17048_reg_write]

/-- Witness of C9: a write of 0x1234 to register byte 4 with length field 3, on a
default instance. -/
theorem transfer_write_rejected_witness :
    max17048_emul_transfer_i2c datasheet (some 0) [⟨[4], 1, 0⟩, ⟨[0x12, 0x34], 3, 0⟩] 2 0x36
        emul_state.init
      = some (-5, [⟨[4], 1, 0⟩, ⟨[0x12, 0x34], 3, 0⟩], emul_state.init) :=
  transfer_write_rejected datasheet 0 4 0x12 0x34 ⟨[4], 1, 0⟩ ⟨[0x12, 0x34], 3, 0⟩ 0x36
    emul_state.init (by decide) (by decide) (by decide) (by decide) (by decide)

/-- C10: whenever `max17048_emul_transfer_i2c` returns a non-zero result, that result is
`-EIO`, every message buffer is as it was before the call, and the state is unchanged. -/
theorem transfer_failure_is_eio_and_writes_nothing (H : max17048_h) (target : Option emul)
    (msgs msgs' : List i2c_msg) (num_msgs addr rc : Int) (s s' : emul_state)
    (h : max17048_emul_transfer_i2c H target msgs num_msgs addr s = some (rc, msgs', s'))
    (hrc : rc ≠ 0) :
    rc = - EIO ∧ msgs' = msgs ∧ s' = s := by
  unfold max17048_emul_transfer_i2c at h
  repeat' split at h
  all_goals try simp at h
  all_goals try (obtain ⟨h1, h2, h3⟩ := h; subst h1 h2 h3)
  all_goals try simp
  · rename_i t _ _ _ _ _ _ _ b _ _ _ _ _ _ _
    rcases reg_read_cases H t (b : Int) s with ⟨v, hv⟩ | hv
    · rw [hv] at h
      simp only [if_true] at h
      split at h
      · simp at h
      · simp only [Option.some.injEq, Prod.mk.injEq] at h
        exact absurd h.1.symm hrc
    · rw [hv] at h
      simp [ EIO] at h
      obtain ⟨h1, h2, h3⟩ := h
      subst h1 h2 h3
      simp [ EIO]
  · simp [emul_max17048_reg_write]

/-- Witness of C10: a transaction with three segments on a default instance returns
`-EIO` (-5); no byte of any buffer is written and the state is unchanged. -/
theorem transfer_failure_is_eio_and_writes_nothing_witness :
    max17048_emul_transfer_i2c datasheet (some 0)
        [⟨[4], 1, 0⟩, ⟨[0xAA, 0xBB], 2, 1⟩, ⟨[0xCC, 0xDD], 2, 1⟩] 3 0x36 emul_state.init
      = some (-5, [⟨[4], 1, 0⟩, ⟨[0xAA, 0xBB], 2, 1⟩, ⟨[0xCC, 0xDD], 2, 1⟩], emul_state.init) ∧
    (-5 : Int) = - EIO ∧
    [⟨[4], 1, 0⟩, ⟨[0xAA, 0xBB], 2, 1⟩, ⟨[0xCC, 0xDD], 2, 1⟩]
      = ([⟨[4], 1, 0⟩, ⟨[0xAA, 0xBB], 2, 1⟩, ⟨[0xCC, 0xDD], 2, 1⟩] : List i2c_msg) ∧
    emul_state.init = emul_state.init :=
  ⟨rfl, transfer_failure_is_eio_and_writes_nothing datasheet (some 0)
    [⟨[4], 1, 0⟩, ⟨[0xAA, 0xBB], 2, 1⟩, ⟨[0xCC, 0xDD], 2, 1⟩]
    [⟨[4], 1, 0⟩, ⟨[0xAA, 0xBB], 2, 1⟩, ⟨[0xCC, 0xDD], 2, 1⟩] 3 0x36 (-5)
    emul_state.init emul_state.init rfl (by decide)⟩

/-- C11: under the caller's contract `max17048_emul_transfer_i2c` returns 0 if and only
if `num_msgs` is 2, segment 0 does not carry the read flag and has length exactly 1,
segment 1 carries the read flag and has length exactly 2, and the byte in segment 0 is
one of the four register identifiers; in every other case it returns `-EIO`. -/
theorem transfer_returns_zero_iff (H : max17048_h) (t : emul) (msgs : List i2c_msg)
    (num_msgs addr : Int) (s : emul_state) (hpre : transfer_pre H msgs num_msgs) :
    ∃ rc msgs' s',
      max17048_emul_transfer_i2c H (some t) msgs num_msgs addr s = some (rc, msgs', s') ∧
      (rc = 0 ↔ read_accepted H msgs num_msgs) ∧
      (¬ read_accepted H msgs num_msgs → rc = - EIO) := by
  by_cases hacc : read_accepted H msgs num_msgs
  · obtain ⟨m0, m1, b, bt, x, y, rest, v, -, -, -, -, ht⟩ :=
      transfer_accepted H t msgs num_msgs addr s hpre hacc
    exact ⟨0, _, s, ht, ⟨fun _ => hacc, fun _ => rfl⟩, fun h => absurd hacc h⟩
  · refine ⟨- EIO, msgs, s, transfer_rejected H t msgs num_msgs addr s hpre hacc, ?_,
      fun _ => rfl⟩
    constructor
    · intro h
      simp [ EIO] at h
    · intro h
      exact absurd h hacc

/-- Witness of C11: a read segment with length field 0 is rejected with `-EIO` (the
unsigned `len - 1` wraps to `0xFFFFFFFF`, not to 1), and the same transaction with
length 2 returns 0. -/
theorem transfer_returns_zero_iff_witness :
    (∃ rc msgs' s',
      max17048_emul_transfer_i2c datasheet (some 0) [⟨[4], 1, 0⟩, ⟨[], 0, 1⟩] 2 0x36
        emul_state.init = some (rc, msgs', s') ∧
      (rc = 0 ↔ read_accepted datasheet [⟨[4], 1, 0⟩, ⟨[], 0, 1⟩] 2) ∧
      (¬ read_accepted datasheet [⟨[4], 1, 0⟩, ⟨[], 0, 1⟩] 2 → rc = - EIO)) ∧
    ¬ read_accepted datasheet [⟨[4], 1, 0⟩, ⟨[], 0, 1⟩] 2 ∧
    read_accepted datasheet [⟨[4], 1, 0⟩, ⟨[0, 0], 2, 1⟩] 2 :=
  ⟨transfer_returns_zero_iff datasheet 0 [⟨[4], 1, 0⟩, ⟨[], 0, 1⟩] 2 0x36 emul_state.init
    (by decide), by decide, by decide⟩

/-- C12, the code at a failing input: the start-up state satisfies `soc_reg ≤ 0x6400`;
`emul_max17048_set_soc` does not reject -1 percent, and converting `-256.0` to `uint16_t`
by truncation and wrap-around stores `0xFF00`, which breaks `soc_reg ≤ 0x6400`. -/
theorem set_soc_negative_breaks_range :
    soc_in_range emul_state.init ∧
    ((emul_max17048_set_soc (some 0) (-1) emul_state.init).2.data 0).soc_reg = 0xFF00 ∧
    ¬ soc_in_range (emul_max17048_set_soc (some 0) (-1) emul_state.init).2 := by
  have hce : ⌈(-256 : ℚ)⌉ = -256 := by
    rw [Int.ceil_eq_iff]; norm_num
  have hnot : ¬ ((-1 : ℚ) > 100) := by norm_num
  have hneg : ¬ ((0 : ℚ) ≤ -1 * 256) := by norm_num
  have hval : ((emul_max17048_set_soc (some 0) (-1) emul_state.init).2.data 0).soc_reg
      = 0xFF00 := by
    simp only [emul_max17048_set_soc, if_neg hnot, store_data_same, float_to_uint16, trunc,
      if_neg hneg]
    norm_num [hce]
    rfl
  refine ⟨?_, hval, ?_⟩
  · intro n
    simp [emul_state.init, max17048_emul_data_init]
  · intro h
    have h0 := h 0
    rw [hval] at h0
    omega

/-- C13: the charge-rate register is one value shared by all instances. In a state
reached from start-up without a call to `emul_max17048_set_crate_status`, a well-formed
read of `REGISTER_CRATE` on any instance returns 0 with bytes `[0x40, 0x00]`; after
`emul_max17048_set_crate_status(x)` in any state, followed by any calls other than
`emul_max17048_set_crate_status`, the same read on any instance returns 0 with the
big-endian bytes of `x mod 2^16`. -/
theorem crate_register_shared (H : max17048_h) (hd : H.distinct) (cs cs2 : List emul_call)
    (s0 s s1 : emul_state) (x : Int) (t : emul) (reg : Nat) (m0 m1 : i2c_msg) (addr : Int)
    (hcs : ∀ c ∈ cs, c.is_set_crate_status = false)
    (hs0 : run_calls H cs emul_state.init = some s0)
    (hcs2 : ∀ c ∈ cs2, c.is_set_crate_status = false)
    (hs1 : run_calls H cs2 (emul_max17048_set_crate_status x s) = some s1)
    (hreg : (reg : Int) = H.REGISTER_CRATE) (hwf : well_formed_read reg m0 m1) :
    max17048_emul_transfer_i2c H (some t) [m0, m1] 2 addr s0
      = some (0, [m0, { m1 with buf := [0x40, 0x00] }], s0) ∧
    max17048_emul_transfer_i2c H (some t) [m0, m1] 2 addr s1
      = some (0, [m0, { m1 with buf := [(x % 2 ^ 16).toNat >>> 8,
                                        (x % 2 ^ 16).toNat &&& 0xFF] }], s1) := by
  obtain ⟨h1, -, -, -, -, -⟩ := hd
  have hread : ∀ s' : emul_state,
      emul_max17048_reg_read H t (reg : Int) s' = (0, some s'.crate_value) := by
    intro s'
    simp [emul_max17048_reg_read, hreg, Ne.symm h1]
  have hc0 : s0.crate_value = 0x4000 :=
    run_calls_keeps_crate_value H cs emul_state.init s0 hcs hs0
  have hc1 : s1.crate_value = x :=
    run_calls_keeps_crate_value H cs2 (emul_max17048_set_crate_status x s) s1 hcs2 hs1
  constructor
  · rw [transfer_read_eq H t reg m0 m1 addr s0 _ hwf (hread s0), hc0]
    rfl
  · rw [transfer_read_eq H t reg m0 m1 addr s1 _ hwf (hread s1), hc1,
      Nat.shiftRight_eq_div_pow]
    have : (255 : Nat) = 2 ^ 8 - 1 := by norm_num
    rw [this, Nat.and_pow_two_sub_one_eq_mod]

/-- Witness of C13: instance 1 reads `[0x40, 0x00]` after a voltage update of instance 0;
after `emul_max17048_set_crate_status(0x12345)` and a voltage update of instance 0,
instance 3 reads the low 16 bits, `[0x23, 0x45]`. -/
theorem crate_register_shared_witness :
    max17048_emul_transfer_i2c datasheet (some 1) [⟨[0x16], 1, 0⟩, ⟨[0, 0], 2, 1⟩] 2 0x36
        (emul_max17048_set_voltage (some 0) 3000 emul_state.init).2
      = some (0, [⟨[0x16], 1, 0⟩, ⟨[0x40, 0x00], 2, 1⟩],
          (emul_max17048_set_voltage (some 0) 3000 emul_state.init).2) ∧
    max17048_emul_transfer_i2c datasheet (some 3) [⟨[0x16], 1, 0⟩, ⟨[0, 0], 2, 1⟩] 2 0x36
        (emul_max17048_set_voltage (some 0) 3300
          (emul_max17048_set_crate_status 0x12345 emul_state.init)).2
      = some (0, [⟨[0x16], 1, 0⟩, ⟨[0x23, 0x45], 2, 1⟩],
          (emul_max17048_set_voltage (some 0) 3300
            (emul_max17048_set_crate_status 0x12345 emul_state.init)).2) :=
  crate_register_shared datasheet (by decide) [.set_voltage (some 0) 3000]
    [.set_voltage (some 0) 3300] _ emul_state.init _ 0x12345 _ 0x16 ⟨[0x16], 1, 0⟩
    ⟨[0, 0], 2, 1⟩ 0x36 (by decide) rfl (by decide) rfl (by decide) (by decide)

/-- C14: the voltage encoding loses no millivolt. For voltages `v1`, `v2` of at most
5119 mV and `r` the `vcell_reg` value stored by `emul_max17048_set_voltage`,
`floor(r * 78.125 / 1000) = v` and `floor(5 * r / 64) = v`; the encoding is strictly
increasing and injective. -/
theorem set_voltage_encoding_injective (n : emul) (v1 v2 : Nat) (s : emul_state)
    (h1 : v1 ≤ 5119) (h2 : v2 ≤ 5119) :
    ⌊((((emul_max17048_set_voltage (some n) v1 s).2.data n).vcell_reg : Nat) : ℚ)
        * vcell_lsb / 1000⌋ = (v1 : Int) ∧
    5 * ((emul_max17048_set_voltage (some n) v1 s).2.data n).vcell_reg / 64 = v1 ∧
    (v1 < v2 → ((emul_max17048_set_voltage (some n) v1 s).2.data n).vcell_reg
      < ((emul_max17048_set_voltage (some n) v2 s).2.data n).vcell_reg) ∧
    (((emul_max17048_set_voltage (some n) v1 s).2.data n).vcell_reg
      = ((emul_max17048_set_voltage (some n) v2 s).2.data n).vcell_reg → v1 = v2) := by
  rw [set_voltage_vcell_reg n v1 s h1, set_voltage_vcell_reg n v2 s h2]
  simp only [store_data_same]
  have a1 : 5 * ((64 * v1 + 4) / 5) ≤ 64 * v1 + 4 := Nat.mul_div_le _ _
  have b1 : 64 * v1 ≤ 5 * ((64 * v1 + 4) / 5) := by omega
  have a2 : 5 * ((64 * v2 + 4) / 5) ≤ 64 * v2 + 4 := Nat.mul_div_le _ _
  have b2 : 64 * v2 ≤ 5 * ((64 * v2 + 4) / 5) := by omega
  generalize (64 * v1 + 4) / 5 = k1 at a1 b1 ⊢
  generalize (64 * v2 + 4) / 5 = k2 at a2 b2 ⊢
  refine ⟨?_, by omega, by omega, by omega⟩
  have a1q : (5 : ℚ) * (k1 : ℚ) ≤ 64 * (v1 : ℚ) + 4 := by exact_mod_cast a1
  have b1q : (64 : ℚ) * (v1 : ℚ) ≤ 5 * (k1 : ℚ) := by exact_mod_cast b1
  rw [Int.floor_eq_iff]
  unfold vcell_lsb
  simp only [Int.cast_natCast]
  constructor <;> linarith

/-- Witness of C14: 3299 mV and 3300 mV on a default instance. -/
theorem set_voltage_encoding_injective_witness :
    ⌊((((emul_max17048_set_voltage (some 0) 3299 emul_state.init).2.data 0).vcell_reg : Nat) : ℚ)
        * vcell_lsb / 1000⌋ = ((3299 : Nat) : Int) ∧
    5 * ((emul_max17048_set_voltage (some 0) 3299 emul_state.init).2.data 0).vcell_reg / 64
      = 3299 ∧
    (3299 < 3300 → ((emul_max17048_set_voltage (some 0) 3299 emul_state.init).2.data 0).vcell_reg
      < ((emul_max17048_set_voltage (some 0) 3300 emul_state.init).2.data 0).vcell_reg) ∧
    (((emul_max17048_set_voltage (some 0) 3299 emul_state.init).2.data 0).vcell_reg
      = ((emul_max17048_set_voltage (some 0) 3300 emul_state.init).2.data 0).vcell_reg →
        3299 = 3300) :=
  set_voltage_encoding_injective 0 3299 3300 emul_state.init (by decide) (by decide)

/-- C15: each operation touches only its own register. For every state, argument and
instance `i`: `emul_max17048_set_voltage` leaves `soc_reg` and `crate_value` unchanged,
`emul_max17048_set_soc` leaves `vcell_reg` and `crate_value` unchanged,
`emul_max17048_set_crate_status` leaves `soc_reg` and `vcell_reg` unchanged, and a bus
transaction that returns 0 leaves the whole state unchanged, so that repeating it, with
the original buffers or with the buffers it left, returns 0 with the same reply bytes. -/
theorem operations_touch_only_their_register (H : max17048_h) (target : Option emul)
    (v : Nat) (p : ℚ) (x : Int) (msgs msgs' : List i2c_msg) (num_msgs addr : Int)
    (s s' : emul_state) (i : emul)
    (ht : max17048_emul_transfer_i2c H target msgs num_msgs addr s = some (0, msgs', s')) :
    (((emul_max17048_set_voltage target v s).2.data i).soc_reg = (s.data i).soc_reg ∧
      (emul_max17048_set_voltage target v s).2.crate_value = s.crate_value) ∧
    (((emul_max17048_set_soc target p s).2.data i).vcell_reg = (s.data i).vcell_reg ∧
      (emul_max17048_set_soc target p s).2.crate_value = s.crate_value) ∧
    (((emul_max17048_set_crate_status x s).data i).soc_reg = (s.data i).soc_reg ∧
      ((emul_max17048_set_crate_status x s).data i).vcell_reg = (s.data i).vcell_reg) ∧
    s' = s ∧
    max17048_emul_transfer_i2c H target msgs num_msgs addr s' = some (0, msgs', s') ∧
    max17048_emul_transfer_i2c H target msgs' num_msgs addr s' = some (0, msgs', s') := by
  have hs : s' = s := transfer_state_eq H target msgs msgs' num_msgs addr 0 s s' ht
  subst hs
  refine ⟨?_, ?_, ⟨rfl, rfl⟩, rfl, ht, ?_⟩
  · unfold emul_max17048_set_voltage
    split
    · exact ⟨rfl, rfl⟩
    · split
      · exact ⟨rfl, rfl⟩
      · refine ⟨?_, rfl⟩
        simp only [emul_state.store]
        split
        · next h => rw [h]
        · rfl
  · unfold emul_max17048_set_soc
    split
    · exact ⟨rfl, rfl⟩
    · split
      · exact ⟨rfl, rfl⟩
      · refine ⟨?_, rfl⟩
        simp only [emul_state.store]
        split
        · next h => rw [h]
        · rfl
  · exact transfer_success_again H target msgs msgs' num_msgs addr s' s' ht

/-- Witness of C15: a read of `REGISTER_SOC` on a default instance, repeated. -/
theorem operations_touch_only_their_register_witness :
    (((emul_max17048_set_voltage (some 0) 3300 emul_state.init).2.data 0).soc_reg
        = (emul_state.init.data 0).soc_reg ∧
      (emul_max17048_set_voltage (some 0) 3300 emul_state.init).2.crate_value
        = emul_state.init.crate_value) ∧
    (((emul_max17048_set_soc (some 0) 50 emul_state.init).2.data 0).vcell_reg
        = (emul_state.init.data 0).vcell_reg ∧
      (emul_max17048_set_soc (some 0) 50 emul_state.init).2.crate_value
        = emul_state.init.crate_value) ∧
    (((emul_max17048_set_crate_status 7 emul_state.init).data 0).soc_reg
        = (emul_state.init.data 0).soc_reg ∧
      ((emul_max17048_set_crate_status 7 emul_state.init).data 0).vcell_reg
        = (emul_state.init.data 0).vcell_reg) ∧
    emul_state.init = emul_state.init ∧
    max17048_emul_transfer_i2c datasheet (some 0) [⟨[4], 1, 0⟩, ⟨[0, 0], 2, 1⟩] 2 0x36
        emul_state.init
      = some (0, [⟨[4], 1, 0⟩, ⟨[0x25, 0x35], 2, 1⟩], emul_state.init) ∧
    max17048_emul_transfer_i2c datasheet (some 0) [⟨[4], 1, 0⟩, ⟨[0x25, 0x35], 2, 1⟩] 2 0x36
        emul_state.init
      = some (0, [⟨[4], 1, 0⟩, ⟨[0x25, 0x35], 2, 1⟩], emul_state.init) :=
  operations_touch_only_their_register datasheet (some 0) 3300 50 7
    [⟨[4], 1, 0⟩, ⟨[0, 0], 2, 1⟩] [⟨[4], 1, 0⟩, ⟨[0x25, 0x35], 2, 1⟩] 2 0x36
    emul_state.init emul_state.init 0 rfl

/-- C16: the result of `max17048_emul_transfer_i2c` depends only on the register state,
`num_msgs`, the flags and lengths of the segments and the register byte of segment 0.
Two calls within the caller's contract that agree on these return the same code and,
on success, leave the same two reply bytes, whatever the `addr` arguments and the prior
contents of the reply buffers. -/
theorem transfer_ignores_addr_and_buffer (H : max17048_h) (t : emul)
    (msgs1 msgs2 : List i2c_msg) (num_msgs addr1 addr2 : Int) (s : emul_state)
    (hshape : msgs1.map (fun m => (m.flags, m.len)) = msgs2.map (fun m => (m.flags, m.len)))
    (hreg : (msgs1.head?.bind fun m => m.buf.head?) = (msgs2.head?.bind fun m => m.buf.head?))
    (hpre1 : transfer_pre H msgs1 num_msgs) (hpre2 : transfer_pre H msgs2 num_msgs) :
    ∃ rc out1 out2,
      max17048_emul_transfer_i2c H (some t) msgs1 num_msgs addr1 s = some (rc, out1, s) ∧
      max17048_emul_transfer_i2c H (some t) msgs2 num_msgs addr2 s = some (rc, out2, s) ∧
      (rc = 0 → (out1.tail.head?.map fun m => m.buf.take 2)
        = (out2.tail.head?.map fun m => m.buf.take 2)) := by
  by_cases hacc1 : read_accepted H msgs1 num_msgs
  · have hacc2 := read_accepted_congr H msgs1 msgs2 num_msgs hshape hreg hacc1
    obtain ⟨a0, a1, b, bt, x, y, rest, v, hm1, hb1, -, hv1, ht1⟩ :=
      transfer_accepted H t msgs1 num_msgs addr1 s hpre1 hacc1
    obtain ⟨c0, c1, b', bt', x', y', rest', v', hm2, hb2, -, hv2, ht2⟩ :=
      transfer_accepted H t msgs2 num_msgs addr2 s hpre2 hacc2
    subst hm1 hm2
    simp only [List.head?_cons, Option.some_bind, hb1, hb2, Option.some.injEq] at hreg
    subst hreg
    rw [hv1] at hv2
    simp only [Prod.mk.injEq, Option.some.injEq, true_and] at hv2
    subst hv2
    exact ⟨0, _, _, ht1, ht2, fun _ => by simp⟩
  · have hacc2 : ¬ read_accepted H msgs2 num_msgs := fun h =>
      hacc1 (read_accepted_congr H msgs2 msgs1 num_msgs hshape.symm hreg.symm h)
    refine ⟨- EIO, msgs1, msgs2, transfer_rejected H t msgs1 num_msgs addr1 s hpre1 hacc1,
      transfer_rejected H t msgs2 num_msgs addr2 s hpre2 hacc2, ?_⟩
    intro h
    simp [ EIO] at h

/-- Witness of C16: two reads of `REGISTER_SOC` on a default instance with different bus
addresses and different prior reply buffers. -/
theorem transfer_ignores_addr_and_buffer_witness :
    ∃ rc out1 out2,
      max17048_emul_transfer_i2c datasheet (some 0) [⟨[4], 1, 0⟩, ⟨[0, 0], 2, 1⟩] 2 0x36
        emul_state.init = some (rc, out1, emul_state.init) ∧
      max17048_emul_transfer_i2c datasheet (some 0) [⟨[4], 1, 0⟩, ⟨[0xAA, 0xBB], 2, 1⟩] 2 0x55
        emul_state.init = some (rc, out2, emul_state.init) ∧
      (rc = 0 → (out1.tail.head?.map fun m => m.buf.take 2)
        = (out2.tail.head?.map fun m => m.buf.take 2)) :=
  transfer_ignores_addr_and_buffer datasheet 0 [⟨[4], 1, 0⟩, ⟨[0, 0], 2, 1⟩]
    [⟨[4], 1, 0⟩, ⟨[0xAA, 0xBB], 2, 1⟩] 2 0x36 0x55 emul_state.init (by decide) (by decide)
    (by decide) (by decide)

end Max17048
